import Mathlib

/-!
Verification of the synchronized capture-and-classification pipeline of
classify-audio-video: a shallow embedding of the circular audio buffer
(`pyaudio_capture.py`), the stream processor (`stream_processor.py`), the
sync manager (`sync_manager.py`) and the activity classifier
(`activity_classifier.py`), with theorems settling the spec's claims.

Numeric modelling conventions: Python floats are embedded as exact
rationals (ℚ); int16 samples as ℤ.  IEEE-754 special values (NaN,
infinities) that numpy produces on division by zero are modelled by an
explicit `FloatVal` type where they matter.  Wall-clock times are passed
in as explicit parameters.
-/

namespace ClassifyAV

/-! ### Activity classifier (src/server/analysis/activity_classifier.py)

The feature dictionaries produced by `_extract_video_features` /
`_extract_audio_features` are either empty (`{}`) or carry the full fixed
key set; they are embedded as `Option` of a structure, `none` standing for
the empty dict.  `np.std` is an irrational square root, so the structure
stores its square (`std_amplitude_sq`, the variance); no claim reads the
amplitude std downstream, and the feature-extraction theorem characterises
the stored value as the squared standard deviation. -/

structure VideoFeatures where
  mean_intensity : ℚ
  std_intensity : ℚ
  min_intensity : ℚ
  max_intensity : ℚ
  histogram : List ℚ
  deriving DecidableEq, Repr

structure AudioFeatures where
  mean_amplitude : ℚ
  std_amplitude_sq : ℚ
  max_amplitude : ℚ
  energy : ℚ
  zero_crossing_rate : ℚ
  deriving DecidableEq, Repr

/-- `{type, confidence, timestamp, duration}` as built by
`_rule_based_classification`; `timestamp` is `int(time.time())`, passed in
as `now`.  The source's labels are French strings; the spec's English
names map as: "video-call" = "visioconférence", "video/media" = "vidéo",
"idle" = "inactif", "reading" = "lecture", "web-browsing" =
"navigation_web". -/
structure ActivityResult where
  type : String
  confidence : ℚ
  timestamp : ℤ
  duration : ℕ
  deriving DecidableEq, Repr

/-- `ActivityClassifier._rule_based_classification`, lines 243-317.
Straight-line translation: rule 1 (audio energy), elif rule 2 (video),
then the audio/video overlay rule which overwrites `activity_type` and
`confidence`, then the result dict is assembled. -/
def rule_based_classification (video_features : Option VideoFeatures)
    (audio_features : Option AudioFeatures) (now : ℤ) : ActivityResult :=
  match video_features, audio_features with
  | none, none =>
      -- `if not video_features and not audio_features:` early return
      { type := "inactif", confidence := 0.6, timestamp := now, duration := 0 }
  | _, _ =>
      -- rules 1 and 2: `if audio_features and energy > 0.1 ... elif video_features ...`
      let videoRule : String × ℚ :=
        match video_features with
        | some vf =>
            if vf.std_intensity < 20 then
              if vf.mean_intensity < 100 then ("inactif", 0.8)
              else ("lecture", 0.7)
            else if vf.std_intensity > 50 then ("vidéo", 0.75)
            else ("navigation_web", 0.65)
        | none => ("inactif", 0.6)
      let step12 : String × ℚ :=
        match audio_features with
        | some af =>
            if af.energy > 0.1 then
              if af.zero_crossing_rate > 0.2 then
                ("visioconférence", min (0.7 + af.energy) 0.95)
              else
                ("vidéo", min (0.65 + af.energy) 0.9)
            else videoRule
        | none => videoRule
      -- overlay rule: `if video_features and audio_features:`
      let overlaid : String × ℚ :=
        match video_features, audio_features with
        | some vf, some af =>
            if vf.std_intensity > 30 ∧ af.energy > 0.05 then
              ("visioconférence", 0.85)
            else step12
        | _, _ => step12
      { type := overlaid.1, confidence := overlaid.2, timestamp := now, duration := 0 }

/-- `ActivityClassifier._classify_activity`, lines 220-241: returns `None`
when both feature dicts are empty, otherwise falls through to the
rule-based classifier (the ML-model branch is a `pass` placeholder). -/
def classify_activity (video_features : Option VideoFeatures)
    (audio_features : Option AudioFeatures) (now : ℤ) : Option ActivityResult :=
  if video_features = none ∧ audio_features = none then none
  else some (rule_based_classification video_features audio_features now)

/-! ### Circular audio buffer (src/server/capture/pyaudio_capture.py)

The buffer is a `buffer_chunks × chunk_size` int16 array with a write
cursor `buffer_index`; it is embedded as a `List (List ℤ)` of chunks
together with the cursor.  `get_latest_audio` computes
`chunks_needed = min(int(chunks_per_ms * duration_ms), buffer_chunks)`
with `chunks_per_ms = sample_rate / (chunk_size * 1000)` — a Python float
expression, embedded exactly over ℚ with `int()` as the floor (the
operands are non-negative). -/

/-- `chunks_needed` as computed by `get_latest_audio` (lines 159-164). -/
def chunksNeededFor (sample_rate chunk_size duration_ms cap : ℕ) : ℕ :=
  min ⌊(sample_rate : ℚ) / ((chunk_size : ℚ) * 1000) * (duration_ms : ℚ)⌋₊ cap

/-- The slice selection of `get_latest_audio` (lines 166-177):
`start_index = (buffer_index - chunks_needed) % buffer_chunks` (Python
modulo, always non-negative), then either the contiguous slice
`buffer[start_index:buffer_index]` or the wrap-around concatenation
`buffer[start_index:] ++ buffer[:buffer_index]`. -/
def getLatestAudioSel (buf : List (List ℤ)) (idx k : ℕ) : List (List ℤ) :=
  let start := ((idx + buf.length) - k) % buf.length
  if start < idx then (buf.drop start).take (idx - start)
  else buf.drop start ++ buf.take idx

/-- `PyAudioCapture.get_latest_audio` (lines 147-182): `None` when not
streaming, otherwise the selected chunks flattened, or `None` when the
flattened data is empty. -/
def get_latest_audio (sample_rate chunk_size : ℕ) (buf : List (List ℤ))
    (idx : ℕ) (is_streaming : Bool) (duration_ms : ℕ) : Option (List ℤ) :=
  if !is_streaming then none
  else
    let chunks_needed := chunksNeededFor sample_rate chunk_size duration_ms buf.length
    let flat := (getLatestAudioSel buf idx chunks_needed).flatten
    if 0 < flat.length then some flat else none

/-- Spec-side description of "the `k` most recent chunks in logical
(oldest-to-newest) order": rotate the physical buffer so slot `idx` (the
next slot to be overwritten, hence the oldest) comes first, then keep the
last `k` chunks. -/
def specLatestChunks (buf : List (List ℤ)) (idx k : ℕ) : List (List ℤ) :=
  (buf.drop idx ++ buf.take idx).drop (buf.length - k)

/-! ### Stream processor (src/server/capture/stream_processor.py)

`process_audio` divides the int16 window elementwise by its peak absolute
amplitude with numpy semantics: `np.abs` on an int16 array stays int16
and wraps on its one overflowing input (`abs(-32768) = -32768`), and the
subsequent float division by a zero peak does not raise (numpy emits a
warning), it produces IEEE-754 special values, so the result samples are
modelled by `FloatVal`. -/

/-- An IEEE-754 result value: a finite (exactly-represented) number, an
infinity, or NaN. -/
inductive FloatVal where
  | val (q : ℚ)
  | posInf
  | negInf
  | nan
  deriving DecidableEq, Repr

/-- IEEE-754 division on exact values: `0/0 = NaN`, `x/0 = ±∞` for
`x ≠ 0`, ordinary quotient otherwise (rounding is not modelled; the
claims only concern membership in `[-1, 1]` and definedness). -/
def ieeeDiv (x d : ℚ) : FloatVal :=
  if d = 0 then
    if x = 0 then FloatVal.nan
    else if x > 0 then FloatVal.posInf else FloatVal.negInf
  else FloatVal.val (x / d)

/-- Wrap an integer into the int16 range `[-32768, 32767]` (two's
complement reduction mod `2^16`). -/
def int16Wrap (x : ℤ) : ℤ := (x + 32768) % 65536 - 32768

/-- `np.abs` on one int16 sample: the exact absolute value wrapped back
into int16, so `abs(-32768) = -32768` (the int16 absolute-value
overflow) and `abs(x) = |x|` for every other representable sample. -/
def int16Abs (x : ℤ) : ℤ := int16Wrap |x|

/-- `np.max` over an integer array (numpy raises on an empty array;
`process_audio` only applies this to non-empty windows, so the `[]` case
carries the conventional value `0`). -/
def npMax : List ℤ → ℤ
  | [] => 0
  | x :: rest => rest.foldl max x

/-- `np.max(np.abs(audio_data))` over an int16 window, with numpy's
wrapping int16 absolute value. -/
def peakAbs (xs : List ℤ) : ℤ := npMax (xs.map int16Abs)

/-- `StreamProcessor.process_audio` (lines 52-72): `None` on `None`/empty
input, otherwise `audio_data / np.max(np.abs(audio_data))` elementwise.
The `except` branch is unreachable for numeric input (numpy division by
zero warns rather than raises), so it does not appear. -/
def process_audio (audio_data : List ℤ) : Option (List FloatVal) :=
  if audio_data = [] then none
  else some (audio_data.map fun (x : ℤ) => ieeeDiv (x : ℚ) ((peakAbs audio_data : ℤ) : ℚ))

/-! ### Audio feature extraction
(`StreamProcessor.extract_audio_features`, lines 129-167, and the
identical `ActivityClassifier._extract_audio_features`, lines 181-218.)

Samples are taken in ℚ (the classifier feeds normalized floats, the
stream processor raw ints).  `np.std` is the square root of the variance;
the structure stores the variance `std_amplitude_sq` (see above).
`np.diff` on the boolean `np.signbit` array uses `not_equal`, so the
zero-crossing count is the number of adjacent pairs whose signbit
differs. -/

/-- Mean of a list of rationals (`np.mean`). -/
def listMean (xs : List ℚ) : ℚ := xs.sum / (xs.length : ℚ)

/-- Variance of a list of rationals (`np.std` squared: mean squared
deviation from the mean, denominator `n`). -/
def listVar (xs : List ℚ) : ℚ :=
  (xs.map fun x => (x - listMean xs) ^ 2).sum / (xs.length : ℚ)

/-- `np.max(np.abs(xs))` over ℚ (fold base `0` is absorbed). -/
def maxAbsQ (xs : List ℚ) : ℚ :=
  xs.foldr (fun x m => max |x| m) 0

/-- `np.sum(np.abs(np.diff(np.signbit(xs))))`: the number of adjacent
sample pairs where exactly one of the two samples is negative. -/
def zeroCrossCount (xs : List ℚ) : ℕ :=
  ((xs.zip xs.tail).filter fun p => decide (p.1 < 0) ≠ decide (p.2 < 0)).length

/-- `extract_audio_features`: empty dict (`none`) on `None`/empty input,
otherwise `{mean_amplitude = np.mean(x), std_amplitude = np.std(x)
(stored squared), max_amplitude = np.max(np.abs(x)),
energy = np.sum(x**2)/len(x),
zero_crossing_rate = np.sum(np.abs(np.diff(np.signbit(x))))/len(x)}`. -/
def extract_audio_features (audio_data : List ℚ) : Option AudioFeatures :=
  if audio_data = [] then none
  else some
    { mean_amplitude := listMean audio_data
      std_amplitude_sq := listVar audio_data
      max_amplitude := maxAbsQ audio_data
      energy := (audio_data.map fun x => x ^ 2).sum / (audio_data.length : ℚ)
      zero_crossing_rate := (zeroCrossCount audio_data : ℚ) / (audio_data.length : ℚ) }

/-- Spec-side "mean of the absolute sample values" (the spec's reading of
`mean_amplitude`), used to compare against the source's
`np.mean(audio_data)`. -/
def specMeanAbsAmplitude (xs : List ℚ) : ℚ :=
  (xs.map fun x => |x|).sum / (xs.length : ℚ)

/-! ### Sync manager (src/server/capture/sync_manager.py)

The shared snapshot `{current_video_frame, current_audio_data,
last_sync_time}` is mutated only inside `_sync_loop`'s critical section;
readers run under the same lock, so an execution is an interleaving of
whole critical sections.  One loop iteration is `sync_tick`, taking the
values the two sources returned on that tick (`get_current_frame`,
`get_latest_audio`) and the wall clock; a finite execution is a fold of
ticks from the initial snapshot.  Frame and audio payload types and the
two processing functions (`process_video`, `process_audio`) are
parameters, so cycle-tagged payloads can be instantiated. -/

structure SyncState (F A : Type) where
  current_video_frame : Option F
  current_audio_data : Option A
  last_sync_time : ℕ
  deriving DecidableEq, Repr

/-- `__init__`: both fields `None`, `last_sync_time = 0`. -/
def syncInit (F A : Type) : SyncState F A :=
  { current_video_frame := none, current_audio_data := none, last_sync_time := 0 }

/-- One iteration of `SyncManager._sync_loop` (lines 83-105): when both
the fetched frame and the fetched audio are present, process both and
replace frame, audio and timestamp together in one critical section;
otherwise leave the snapshot untouched. -/
def sync_tick (pv : F → F') (pa : A → A') (s : SyncState F' A')
    (tick : Option F × Option A × ℕ) : SyncState F' A' :=
  match tick with
  | (some video_frame, some audio_data, now) =>
      { current_video_frame := some (pv video_frame)
        current_audio_data := some (pa audio_data)
        last_sync_time := now }
  | _ => s

/-- A finite execution of the sync loop: fold the ticks (each a pair of
optional source reads plus the clock) over the initial snapshot. -/
def sync_run (pv : F → F') (pa : A → A') (ticks : List (Option F × Option A × ℕ)) :
    SyncState F' A' :=
  ticks.foldl (sync_tick pv pa) (syncInit F' A')

/-- `SyncManager.get_sync_data` (lines 107-116): `(None, None, 0)` when
either field is `None`, otherwise the pair with its timestamp. -/
def get_sync_data (s : SyncState F A) : Option F × Option A × ℕ :=
  match s.current_video_frame, s.current_audio_data with
  | some f, some a => (some f, some a, s.last_sync_time)
  | _, _ => (none, none, 0)

/-! ### Classifier state (`analyze_current_activity`, lines 106-135) -/

structure ClassifierState where
  last_activity : Option ActivityResult
  last_analysis_time : ℤ
  deriving DecidableEq, Repr

/-- `ActivityClassifier.analyze_current_activity`: pull the synchronized
pair; if either side is `None`, return `None` without touching the state;
otherwise extract features (the extractors are parameters — they return
the empty dict, i.e. `none`, on failure), classify, and only on a
non-`None` activity update `last_activity` and `last_analysis_time`
under the lock.  Returns `(result, new state)`. -/
def analyze_current_activity (extractV : F → Option VideoFeatures)
    (extractA : A → Option AudioFeatures) (s : ClassifierState)
    (sync_data : Option F × Option A × ℕ) (now : ℤ) :
    Option ActivityResult × ClassifierState :=
  match sync_data with
  | (some video_frame, some audio_data, _) =>
      let video_features := extractV video_frame
      let audio_features := extractA audio_data
      match classify_activity video_features audio_features now with
      | some activity =>
          (some activity, { last_activity := some activity, last_analysis_time := now })
      | none => (none, s)
  | _ => (none, s)

/-- `ActivityClassifier.get_current_activity` (lines 319-326). -/
def get_current_activity (s : ClassifierState) : Option ActivityResult :=
  s.last_activity

/-! ## Theorems -/

/-- Membership in `[-1, 1]` for an IEEE result value: a finite number in
the interval (NaN and the infinities are outside every interval). -/
def inUnitRange : FloatVal → Prop
  | FloatVal.val q => -1 ≤ q ∧ q ≤ 1
  | _ => False

/-- Spec-side count of "adjacent-sample transitions between non-negative
and negative": walk the window and count adjacent pairs whose
negativity differs. -/
def countSignTransitions : List ℚ → ℕ
  | x :: y :: rest =>
      (if decide (x < 0) ≠ decide (y < 0) then 1 else 0) + countSignTransitions (y :: rest)
  | _ => 0

theorem int16Wrap_eq_self {x : ℤ} (h1 : -32768 ≤ x) (h2 : x ≤ 32767) :
    int16Wrap x = x := by
  rw [int16Wrap]
  omega

/-- For every int16 sample other than `-32768`, numpy's int16 absolute
value agrees with the exact one. -/
theorem int16Abs_eq_abs {x : ℤ} (h1 : -32767 ≤ x) (h2 : x ≤ 32767) :
    int16Abs x = |x| :=
  int16Wrap_eq_self (le_trans (by norm_num) (abs_nonneg x)) (abs_le.mpr ⟨h1, h2⟩)

theorem le_foldl_max (b : ℤ) (l : List ℤ) : b ≤ l.foldl max b := by
  induction l generalizing b with
  | nil => exact le_refl b
  | cons z rest ih => exact le_trans (le_max_left b z) (ih (max b z))

theorem mem_le_foldl_max {y : ℤ} {l : List ℤ} (b : ℤ) (h : y ∈ l) :
    y ≤ l.foldl max b := by
  induction l generalizing b with
  | nil => cases h
  | cons z rest ih =>
    rcases List.mem_cons.mp h with rfl | hmem
    · exact le_trans (le_max_right b y) (le_foldl_max _ _)
    · exact ih _ hmem

theorem mem_le_npMax {y : ℤ} {l : List ℤ} (h : y ∈ l) : y ≤ npMax l := by
  cases l with
  | nil => cases h
  | cons x rest =>
    rcases List.mem_cons.mp h with rfl | hmem
    · exact le_foldl_max _ _
    · exact mem_le_foldl_max _ hmem

theorem le_peakAbs {x : ℤ} {xs : List ℤ} (h : x ∈ xs) :
    int16Abs x ≤ peakAbs xs :=
  mem_le_npMax (List.mem_map_of_mem _ h)

theorem foldl_max_self {b : ℤ} {l : List ℤ} (h : ∀ y ∈ l, y ≤ b) :
    l.foldl max b = b := by
  induction l generalizing b with
  | nil => rfl
  | cons z rest ih =>
    have hz : z ≤ b := h z (List.mem_cons_self z rest)
    rw [List.foldl_cons, max_eq_left hz]
    exact ih fun y hy => h y (List.mem_cons_of_mem _ hy)

theorem npMax_eq_zero {l : List ℤ} (h : ∀ y ∈ l, y = 0) : npMax l = 0 := by
  cases l with
  | nil => rfl
  | cons x rest =>
    show List.foldl max x rest = 0
    rw [h x (List.mem_cons_self x rest)]
    exact foldl_max_self fun y hy => le_of_eq (h y (List.mem_cons_of_mem _ hy))

theorem peakAbs_eq_zero {xs : List ℤ} (h : ∀ x ∈ xs, x = 0) : peakAbs xs = 0 := by
  apply npMax_eq_zero
  intro z hz
  rw [List.mem_map] at hz
  obtain ⟨x, hx, rfl⟩ := hz
  rw [h x hx]
  rfl

/-- C3: for every pair of non-empty video and audio feature sets with
video `std_intensity > 30` and audio `energy > 0.05`, the rule cascade
returns type "visioconférence" ("video-call") with confidence `0.85`,
overriding whatever rules 1 and 2 computed. -/
theorem overlay_forces_video_call (vf : VideoFeatures) (af : AudioFeatures)
    (now : ℤ) (hv : vf.std_intensity > 30) (ha : af.energy > 0.05) :
    rule_based_classification (some vf) (some af) now =
      { type := "visioconférence", confidence := 0.85, timestamp := now, duration := 0 } := by
  simp only [rule_based_classification]
  rw [if_pos ⟨hv, ha⟩]

/-- Witness for C3: `std_intensity = 35`, `energy = 0.06` yields exactly
`{type: "visioconférence", confidence: 0.85}`. -/
theorem overlay_forces_video_call_witness :
    rule_based_classification (some ⟨0, 35, 0, 0, []⟩) (some ⟨0, 0, 0, 0.06, 0⟩) 0 =
      { type := "visioconférence", confidence := 0.85, timestamp := 0, duration := 0 } :=
  overlay_forces_video_call ⟨0, 35, 0, 0, []⟩ ⟨0, 0, 0, 0.06, 0⟩ 0
    (by norm_num) (by norm_num)

/-- C4: with audio `energy > 0.1` and no video features, a
`zero_crossing_rate > 0.2` yields "visioconférence" ("video-call") with
confidence `min (0.7 + energy) 0.95`, otherwise "vidéo" ("video/media")
with confidence `min (0.65 + energy) 0.9`. -/
theorem audio_rule_classification (af : AudioFeatures) (now : ℤ)
    (h : af.energy > 0.1) :
    (af.zero_crossing_rate > 0.2 →
      rule_based_classification none (some af) now =
        { type := "visioconférence", confidence := min (0.7 + af.energy) 0.95,
          timestamp := now, duration := 0 }) ∧
    (af.zero_crossing_rate ≤ 0.2 →
      rule_based_classification none (some af) now =
        { type := "vidéo", confidence := min (0.65 + af.energy) 0.9,
          timestamp := now, duration := 0 }) := by
  constructor <;> intro hz <;> simp only [rule_based_classification]
  · rw [if_pos h, if_pos hz]
  · rw [if_pos h, if_neg (not_lt.mpr hz)]

/-- Witness for C4: `energy = 0.3`, `zero_crossing_rate = 0.5` yields
confidence exactly `0.95` (capped). -/
theorem audio_rule_classification_witness :
    rule_based_classification none (some ⟨0, 0, 0, 0.3, 0.5⟩) 0 =
      { type := "visioconférence", confidence := 0.95, timestamp := 0, duration := 0 } := by
  have h := (audio_rule_classification ⟨0, 0, 0, 0.3, 0.5⟩ 0 (by norm_num)).1 (by norm_num)
  rw [h]
  norm_num

/-- C5: with non-empty video features and no audio features, the cascade
returns "inactif" ("idle") conf `0.8` when `std_intensity < 20` and
`mean_intensity < 100`; "lecture" ("reading") conf `0.7` when
`std_intensity < 20` and `mean_intensity ≥ 100`; "vidéo" ("video/media")
conf `0.75` when `std_intensity > 50`; and "navigation_web"
("web-browsing") conf `0.65` when `20 ≤ std_intensity ≤ 50`. -/
theorem video_only_rule_classification (vf : VideoFeatures) (now : ℤ) :
    (vf.std_intensity < 20 → vf.mean_intensity < 100 →
      rule_based_classification (some vf) none now =
        { type := "inactif", confidence := 0.8, timestamp := now, duration := 0 }) ∧
    (vf.std_intensity < 20 → 100 ≤ vf.mean_intensity →
      rule_based_classification (some vf) none now =
        { type := "lecture", confidence := 0.7, timestamp := now, duration := 0 }) ∧
    (vf.std_intensity > 50 →
      rule_based_classification (some vf) none now =
        { type := "vidéo", confidence := 0.75, timestamp := now, duration := 0 }) ∧
    (20 ≤ vf.std_intensity → vf.std_intensity ≤ 50 →
      rule_based_classification (some vf) none now =
        { type := "navigation_web", confidence := 0.65, timestamp := now, duration := 0 }) := by
  refine ⟨fun h1 h2 => ?_, fun h1 h2 => ?_, fun h1 => ?_, fun h1 h2 => ?_⟩ <;>
    simp only [rule_based_classification]
  · rw [if_pos h1, if_pos h2]
  · rw [if_pos h1, if_neg (not_lt.mpr h2)]
  · rw [if_neg (by linarith), if_pos h1]
  · rw [if_neg (not_lt.mpr h1), if_neg (not_lt.mpr h2)]

/-- Witness for C5: `std_intensity = 10`, `mean_intensity = 50`, no audio
yields `{type: "inactif", confidence: 0.8}`. -/
theorem video_only_rule_classification_witness :
    rule_based_classification (some ⟨50, 10, 0, 0, []⟩) none 0 =
      { type := "inactif", confidence := 0.8, timestamp := 0, duration := 0 } :=
  (video_only_rule_classification ⟨50, 10, 0, 0, []⟩ 0).1 (by norm_num) (by norm_num)

/-- Counterexample for C6: with both feature dicts empty,
`_classify_activity` returns `None` — not the idle result the claim
asserts.  (The `{"inactif", 0.6}` branch of `_rule_based_classification`
is guarded out by `_classify_activity`'s early `return None`.) -/
theorem classify_activity_empty_counterexample :
    classify_activity none none 0 = none ∧
    classify_activity none none 0 ≠
      some { type := "inactif", confidence := 0.6, timestamp := 0, duration := 0 } := by
  refine ⟨rfl, ?_⟩
  intro h
  rw [show classify_activity none none 0 = none from rfl] at h
  exact Option.noConfusion h

/-- C6 amended: with both feature dicts empty, `_classify_activity`
returns no result (`None`); the `{type: "inactif", confidence: 0.6,
duration: 0}` default is produced only by `_rule_based_classification`
when it is called directly with both dicts empty. -/
theorem classify_activity_empty_amended (now : ℤ) :
    classify_activity none none now = none ∧
    rule_based_classification none none now =
      { type := "inactif", confidence := 0.6, timestamp := now, duration := 0 } :=
  ⟨rfl, rfl⟩

/-- C9: a sync tick on which the fetched frame or the fetched audio is
missing leaves the shared snapshot entirely unchanged — frame, audio and
timestamp all keep their previous values. -/
theorem sync_tick_skip_preserves_snapshot {F A F' A' : Type}
    (pv : F → F') (pa : A → A') (s : SyncState F' A')
    (tick : Option F × Option A × ℕ)
    (h : tick.1 = none ∨ tick.2.1 = none) :
    sync_tick pv pa s tick = s := by
  obtain ⟨f, a, now⟩ := tick
  rcases h with h | h
  · cases h
    cases a <;> rfl
  · cases h
    cases f <;> rfl

/-- Witness for C9: a tick with audio present but the frame missing
leaves a populated snapshot exactly as it was. -/
theorem sync_tick_skip_preserves_snapshot_witness :
    sync_tick (fun n : ℕ => n) (fun n : ℕ => n)
      { current_video_frame := some 1, current_audio_data := some 2, last_sync_time := 3 }
      (none, some 5, 7) =
      { current_video_frame := some 1, current_audio_data := some 2, last_sync_time := 3 } :=
  sync_tick_skip_preserves_snapshot (fun n : ℕ => n) (fun n : ℕ => n)
    { current_video_frame := some 1, current_audio_data := some 2, last_sync_time := 3 }
    (none, some 5, 7) (Or.inl rfl)

/-- C10: whenever `analyze_current_activity` produces no result, the
stored `last_activity` and `last_analysis_time` are unchanged, and
`get_current_activity` never reverts to empty once a result has been
published. -/
theorem analyze_no_result_preserves_state {F A : Type}
    (extractV : F → Option VideoFeatures) (extractA : A → Option AudioFeatures)
    (s : ClassifierState) (sync_data : Option F × Option A × ℕ) (now : ℤ) :
    ((analyze_current_activity extractV extractA s sync_data now).1 = none →
      (analyze_current_activity extractV extractA s sync_data now).2 = s) ∧
    (get_current_activity s ≠ none →
      get_current_activity (analyze_current_activity extractV extractA s sync_data now).2 ≠ none) := by
  obtain ⟨f, a, t⟩ := sync_data
  cases f with
  | none => exact ⟨fun _ => rfl, fun h => h⟩
  | some vf =>
    cases a with
    | none => exact ⟨fun _ => rfl, fun h => h⟩
    | some ad =>
      simp only [analyze_current_activity]
      cases hc : classify_activity (extractV vf) (extractA ad) now with
      | none => exact ⟨fun _ => rfl, fun h => h⟩
      | some act =>
        refine ⟨fun h => absurd h (by simp), fun _ => ?_⟩
        simp [get_current_activity]

/-- Witness for C10: a failed cycle (missing frame) leaves a previously
published activity readable. -/
theorem analyze_no_result_preserves_state_witness :
    get_current_activity
      ((analyze_current_activity (fun _ : ℕ => (none : Option VideoFeatures))
        (fun _ : ℕ => (none : Option AudioFeatures))
        { last_activity := some { type := "lecture", confidence := 0.7, timestamp := 0, duration := 0 },
          last_analysis_time := 0 }
        ((none : Option ℕ), (none : Option ℕ), 0) 0).2) ≠ none := by
  apply (analyze_no_result_preserves_state (fun _ : ℕ => (none : Option VideoFeatures))
    (fun _ : ℕ => (none : Option AudioFeatures))
    { last_activity := some { type := "lecture", confidence := 0.7, timestamp := 0, duration := 0 },
      last_analysis_time := 0 }
    ((none : Option ℕ), (none : Option ℕ), 0) 0).2
  simp [get_current_activity]

/-- C1: after any finite sequence of sync-loop iterations, a reader of
`get_sync_data` observes either the empty snapshot `(none, none, 0)` or a
frame and an audio window that were fetched and written together by one
and the same tick (with that tick's timestamp) — never exactly one of the
two populated, never a mixed-cycle pair. -/
theorem sync_snapshot_atomic_pairing (F A F' A' : Type) (pv : F → F') (pa : A → A')
    (ticks : List (Option F × Option A × ℕ)) :
    get_sync_data (sync_run pv pa ticks) = (none, none, 0) ∨
    ∃ f a now, (some f, some a, now) ∈ ticks ∧
      get_sync_data (sync_run pv pa ticks) = (some (pv f), some (pa a), now) := by
  induction ticks using List.reverseRecOn with
  | nil => exact Or.inl rfl
  | append_singleton ts t ih =>
    have hrun : sync_run pv pa (ts ++ [t]) = sync_tick pv pa (sync_run pv pa ts) t := by
      simp [sync_run, List.foldl_append]
    obtain ⟨f, a, now⟩ := t
    cases f with
    | none =>
      rw [hrun, show sync_tick pv pa (sync_run pv pa ts) (none, a, now) = sync_run pv pa ts by
        cases a <;> rfl]
      rcases ih with h | ⟨f', a', n', hmem, heq⟩
      · exact Or.inl h
      · exact Or.inr ⟨f', a', n', List.mem_append_left _ hmem, heq⟩
    | some vf =>
      cases a with
      | none =>
        rw [hrun, show sync_tick pv pa (sync_run pv pa ts) (some vf, none, now) = sync_run pv pa ts from rfl]
        rcases ih with h | ⟨f', a', n', hmem, heq⟩
        · exact Or.inl h
        · exact Or.inr ⟨f', a', n', List.mem_append_left _ hmem, heq⟩
      | some ad =>
        refine Or.inr ⟨vf, ad, now, List.mem_append_right _ (List.mem_singleton.mpr rfl), ?_⟩
        rw [hrun]
        rfl

/-- Counterexample for C7, in two parts.  (i) The all-zero window (the
circular buffer's initial content, accepted by a sync tick) has peak
amplitude `0`; `audio_data / np.max(np.abs(audio_data))` is then `0/0`,
which numpy turns into NaN (a warning, not an exception) — an undefined
value, not a number in `[-1, 1]`.  (ii) numpy's int16 absolute value
wraps (`abs(-32768) = -32768`), so on the window `[-32768, 100]` the
computed peak is `100`, not `32768`, and the first returned sample is
`-327.68` — far outside `[-1, 1]`. -/
theorem process_audio_out_of_range_counterexample :
    (process_audio [0] = some [FloatVal.nan] ∧ ¬ inUnitRange FloatVal.nan) ∧
    (process_audio [-32768, 100] =
        some [FloatVal.val (-8192 / 25), FloatVal.val 1] ∧
      ¬ inUnitRange (FloatVal.val ((-8192 : ℚ) / 25))) := by
  refine ⟨⟨?_, fun h => h⟩, ?_, ?_⟩
  · rw [process_audio, if_neg (by simp)]
    have hpk : peakAbs [0] = 0 := by decide
    rw [List.map_cons, List.map_nil, hpk]
    norm_num [ieeeDiv]
  · rw [process_audio, if_neg (by simp)]
    have hpk : peakAbs [-32768, 100] = 100 := by decide
    rw [List.map_cons, List.map_cons, List.map_nil, hpk]
    norm_num [ieeeDiv]
  · intro h
    exact absurd h.1 (by norm_num)

/-- C7 amended: for every non-empty window of int16 samples containing
at least one nonzero sample and no `-32768`, peak normalization yields a
window of the same length whose every sample is a finite number in
`[-1, 1]` (the error branch is unreachable); for the all-zero window
every returned sample is NaN.  Windows containing `-32768` are excluded
because numpy's wrapping int16 absolute value (`abs(-32768) = -32768`)
can make the computed peak smaller than the true maximum amplitude and
the normalized samples escape `[-1, 1]` (see the counterexample). -/
theorem process_audio_normalizes (xs : List ℤ) (hne : xs ≠ [])
    (hrange : ∀ x ∈ xs, -32768 ≤ x ∧ x ≤ 32767) :
    (((∃ x ∈ xs, x ≠ 0) ∧ (∀ x ∈ xs, x ≠ -32768)) →
      ∃ ys, process_audio xs = some ys ∧ ys.length = xs.length ∧
        ∀ v ∈ ys, inUnitRange v) ∧
    ((∀ x ∈ xs, x = 0) → process_audio xs = some (xs.map fun _ => FloatVal.nan)) := by
  constructor
  · rintro ⟨⟨x0, hx0mem, hx0⟩, hnomin⟩
    have habs_eq : ∀ x ∈ xs, int16Abs x = |x| := by
      intro x hx
      obtain ⟨hl, hu⟩ := hrange x hx
      have hne16 := hnomin x hx
      exact int16Abs_eq_abs (by omega) hu
    have hpk : 0 < peakAbs xs := by
      have h1 : int16Abs x0 ≤ peakAbs xs := le_peakAbs hx0mem
      rw [habs_eq x0 hx0mem] at h1
      have h0 : (0 : ℤ) < |x0| := abs_pos.mpr hx0
      omega
    refine ⟨_, by rw [process_audio, if_neg hne], by simp, ?_⟩
    intro v hv
    rw [List.mem_map] at hv
    obtain ⟨x, hxmem, rfl⟩ := hv
    have hd : ((peakAbs xs : ℤ) : ℚ) ≠ 0 := by
      exact_mod_cast hpk.ne'
    have hdpos : (0 : ℚ) < ((peakAbs xs : ℤ) : ℚ) := by exact_mod_cast hpk
    rw [ieeeDiv, if_neg hd]
    have habs : |(x : ℚ)| ≤ ((peakAbs xs : ℤ) : ℚ) := by
      have h2 : |x| ≤ peakAbs xs := by
        rw [← habs_eq x hxmem]
        exact le_peakAbs hxmem
      rw [← Int.cast_abs]
      exact_mod_cast h2
    have hq : |(x : ℚ) / ((peakAbs xs : ℤ) : ℚ)| ≤ 1 := by
      rw [abs_div, abs_of_pos hdpos]
      exact div_le_one_of_le₀ habs (le_of_lt hdpos)
    exact abs_le.mp hq
  · intro hall
    rw [process_audio, if_neg hne]
    congr 1
    refine List.map_congr_left fun x hx => ?_
    rw [hall x hx, peakAbs_eq_zero hall]
    rfl

/-- Witness for C7 amended: the window `[1, -2]` (in int16 range, no
`-32768`) normalizes to `[1/2, -1]`, both in `[-1, 1]`. -/
theorem process_audio_normalizes_witness :
    process_audio [1, -2] = some [FloatVal.val (1 / 2), FloatVal.val (-1)] ∧
    inUnitRange (FloatVal.val ((1 : ℚ) / 2)) ∧ inUnitRange (FloatVal.val (-1)) := by
  obtain ⟨ys, hys, hlen, hall⟩ :=
    (process_audio_normalizes [1, -2] (by simp) (by decide)).1
      ⟨⟨1, by simp, by norm_num⟩, by decide⟩
  have hpa : process_audio [1, -2] = some [FloatVal.val (1 / 2), FloatVal.val (-1)] := by
    rw [process_audio, if_neg (by simp)]
    have hpk : peakAbs [1, -2] = 2 := by decide
    rw [List.map_cons, List.map_cons, List.map_nil, hpk]
    norm_num [ieeeDiv]
  have hys' : ys = [FloatVal.val (1 / 2), FloatVal.val (-1)] := by
    rw [hpa] at hys
    exact (Option.some_injective _ hys).symm
  subst hys'
  exact ⟨hpa, hall _ (by simp), hall _ (by simp)⟩

theorem zeroCrossCount_eq_countSignTransitions (xs : List ℚ) :
    zeroCrossCount xs = countSignTransitions xs := by
  induction xs with
  | nil => rfl
  | cons x ys ih =>
    cases ys with
    | nil => rfl
    | cons y rest =>
      show (((x, y) :: (y :: rest).zip rest).filter _).length = _
      rw [List.filter_cons]
      by_cases hp : decide (x < 0) ≠ decide (y < 0)
      · rw [if_pos (by simpa using hp), List.length_cons, countSignTransitions,
          if_pos hp, ← ih]
        show zeroCrossCount (y :: rest) + 1 = 1 + zeroCrossCount (y :: rest)
        omega
      · rw [if_neg (by simpa using hp), countSignTransitions, if_neg hp, ← ih]
        show zeroCrossCount (y :: rest) = 0 + zeroCrossCount (y :: rest)
        omega

theorem le_maxAbsQ {x : ℚ} {xs : List ℚ} (h : x ∈ xs) : |x| ≤ maxAbsQ xs := by
  induction xs with
  | nil => cases h
  | cons y ys ih =>
    rcases List.mem_cons.mp h with rfl | hmem
    · exact le_max_left _ _
    · exact le_trans (ih hmem) (le_max_right _ _)

theorem maxAbsQ_mem {xs : List ℚ} (h : xs ≠ []) : ∃ x ∈ xs, maxAbsQ xs = |x| := by
  induction xs with
  | nil => exact absurd rfl h
  | cons y ys ih =>
    cases ys with
    | nil =>
      refine ⟨y, List.mem_singleton.mpr rfl, ?_⟩
      show max |y| 0 = |y|
      exact max_eq_left (abs_nonneg y)
    | cons z rest =>
      obtain ⟨x, hxmem, hx⟩ := ih (by simp)
      rcases le_total (maxAbsQ (z :: rest)) |y| with hle | hle
      · exact ⟨y, List.mem_cons_self _ _, max_eq_left hle⟩
      · refine ⟨x, List.mem_cons_of_mem _ hxmem, ?_⟩
        show max |y| (maxAbsQ (z :: rest)) = |x|
        rw [max_eq_right hle, hx]

theorem sum_sq_sub (xs : List ℚ) (c : ℚ) :
    (xs.map fun x => (x - c) ^ 2).sum =
      (xs.map fun x => x ^ 2).sum - 2 * c * xs.sum + (xs.length : ℚ) * c ^ 2 := by
  induction xs with
  | nil => simp
  | cons y ys ih =>
    simp only [List.map_cons, List.sum_cons, List.length_cons, ih]
    push_cast
    ring

/-- The variance computed by `np.std(x)**2` equals mean square minus
squared mean. -/
theorem listVar_eq (xs : List ℚ) (h : xs ≠ []) :
    listVar xs = (xs.map fun x => x ^ 2).sum / (xs.length : ℚ) - listMean xs ^ 2 := by
  have hn : (xs.length : ℚ) ≠ 0 := Nat.cast_ne_zero.mpr (List.length_pos.mpr h).ne'
  rw [listVar, sum_sq_sub, listMean]
  field_simp
  ring

/-- Counterexample for C8: for the window `[1, -1]` the source computes
`np.mean(audio_data)` over the *signed* samples, giving `0`; the claim's
"mean of the absolute sample values" is `1`. -/
theorem extract_audio_mean_counterexample :
    (extract_audio_features [1, -1]).map AudioFeatures.mean_amplitude = some 0 ∧
    specMeanAbsAmplitude [1, -1] = 1 ∧ (0 : ℚ) ≠ 1 := by
  refine ⟨?_, ?_, by norm_num⟩
  · rw [extract_audio_features, if_neg (by simp)]
    norm_num [listMean]
  · norm_num [specMeanAbsAmplitude]

/-- C8 amended: for every non-empty sample sequence the extracted
features satisfy: `mean_amplitude` is the mean of the *signed* samples
(not of their absolute values), the squared `std_amplitude` is the
variance of the *signed* samples (mean square minus squared mean),
`max_amplitude` is the maximum absolute sample value (an attained upper
bound), `energy` is the sum of squared samples over `n`, and
`zero_crossing_rate` is the number of adjacent-sample transitions
between non-negative and negative divided by `n`. -/
theorem extract_audio_features_spec (xs : List ℚ) (hne : xs ≠ []) :
    ∃ f, extract_audio_features xs = some f ∧
      f.mean_amplitude * (xs.length : ℚ) = xs.sum ∧
      f.std_amplitude_sq = f.energy - f.mean_amplitude ^ 2 ∧
      (∀ x ∈ xs, |x| ≤ f.max_amplitude) ∧
      (∃ x ∈ xs, f.max_amplitude = |x|) ∧
      f.energy * (xs.length : ℚ) = (xs.map fun x => x ^ 2).sum ∧
      f.zero_crossing_rate * (xs.length : ℚ) = (countSignTransitions xs : ℚ) := by
  have hn : (xs.length : ℚ) ≠ 0 := Nat.cast_ne_zero.mpr (List.length_pos.mpr hne).ne'
  refine ⟨_, by rw [extract_audio_features, if_neg hne], ?_, ?_, ?_, ?_, ?_, ?_⟩
  · show listMean xs * (xs.length : ℚ) = xs.sum
    rw [listMean]
    field_simp
  · show listVar xs = (xs.map fun x => x ^ 2).sum / (xs.length : ℚ) - listMean xs ^ 2
    exact listVar_eq xs hne
  · exact fun x hx => le_maxAbsQ hx
  · exact maxAbsQ_mem hne
  · show (xs.map fun x => x ^ 2).sum / (xs.length : ℚ) * (xs.length : ℚ) =
      (xs.map fun x => x ^ 2).sum
    field_simp
  · show (zeroCrossCount xs : ℚ) / (xs.length : ℚ) * (xs.length : ℚ) =
      (countSignTransitions xs : ℚ)
    rw [zeroCrossCount_eq_countSignTransitions]
    field_simp

/-- Witness for C8 amended: on `[1, -1]` the mean of the signed samples
is `0` and the attained maximum absolute amplitude is `1`. -/
theorem extract_audio_features_spec_witness :
    (extract_audio_features [1, -1]).map
      (fun f => (f.mean_amplitude * 2, f.max_amplitude)) = some (0, 1) := by
  obtain ⟨f, hf, hmean, hstd, hub, hattain, hen, hzc⟩ :=
    extract_audio_features_spec [1, -1] (by simp)
  rw [hf, Option.map_some']
  have h1 : f.mean_amplitude * 2 = 0 := by
    have := hmean
    norm_num at this
    simpa using this
  have h2 : f.max_amplitude = 1 := by
    obtain ⟨x, hxmem, hx⟩ := hattain
    rcases List.mem_cons.mp hxmem with rfl | hxmem2
    · simpa using hx
    · rcases List.mem_singleton.mp hxmem2 with rfl
      simpa using hx
  rw [h1, h2]

/-- The slice selection of `get_latest_audio` picks exactly the `k` most
recent chunks, in logical oldest-to-newest order, for any cursor position
and `1 ≤ k ≤ capacity`; the wrap-around case concatenates the two
physical slices in logical order. -/
theorem getLatestAudioSel_eq_spec (buf : List (List ℤ)) (idx k : ℕ)
    (hidx : idx < buf.length) (hk1 : 1 ≤ k) (hk : k ≤ buf.length) :
    getLatestAudioSel buf idx k = specLatestChunks buf idx k := by
  rcases le_or_lt k idx with hki | hki
  · -- the read window is physically contiguous: start = idx - k
    have hstart : ((idx + buf.length) - k) % buf.length = idx - k := by
      have h1 : (idx + buf.length) - k = (idx - k) + buf.length := by omega
      rw [h1, Nat.add_mod_right, Nat.mod_eq_of_lt (by omega)]
    simp only [getLatestAudioSel, hstart]
    rw [if_pos (by omega)]
    rw [specLatestChunks, List.drop_append_eq_append_drop]
    have h2 : (buf.drop idx).drop (buf.length - k) = [] := by
      rw [List.drop_eq_nil_iff, List.length_drop]
      omega
    have h3 : (buf.length - k) - (buf.drop idx).length = idx - k := by
      rw [List.length_drop]
      omega
    rw [h2, List.nil_append, h3, List.drop_take]
  · -- the read window wraps: start = idx + (capacity - k) ≥ idx
    have hstart : ((idx + buf.length) - k) % buf.length = idx + (buf.length - k) := by
      rw [Nat.mod_eq_of_lt (by omega)]
      omega
    simp only [getLatestAudioSel, hstart]
    rw [if_neg (by omega)]
    rw [specLatestChunks, List.drop_append_eq_append_drop]
    have h2 : (buf.length - k) - (buf.drop idx).length = 0 := by
      rw [List.length_drop]
      omega
    rw [h2, List.drop_zero, List.drop_drop]

/-- Counterexample for C2: with `sample_rate = 1000`, `chunk_size = 1000`
(so `chunks_per_ms = 0.001`) and a requested duration of `10` ms, the
implied chunk count is `int(0.01) = 0`, so the claim demands
`min(0, capacity) = 0` chunks; but `start_index` then equals
`buffer_index`, the wrap-around branch is taken, and the *entire* buffer
(all 3 chunks, here `[2, 3, 1]`) is returned. -/
theorem get_latest_audio_zero_chunks_counterexample :
    chunksNeededFor 1000 1000 10 3 = 0 ∧
    get_latest_audio 1000 1000 [[1], [2], [3]] 1 true 10 = some [2, 3, 1] ∧
    (some [2, 3, 1] : Option (List ℤ)) ≠ some [] := by
  have hfl : ⌊(1000 : ℚ) / ((1000 : ℚ) * 1000) * (10 : ℚ)⌋₊ = 0 := by
    apply Nat.floor_eq_zero.mpr
    norm_num
  have hchunks : chunksNeededFor 1000 1000 10 3 = 0 := by
    rw [chunksNeededFor]
    norm_num [hfl]
  refine ⟨hchunks, ?_, by simp⟩
  rw [get_latest_audio]
  have hlen : ([[1], [2], [3]] : List (List ℤ)).length = 3 := rfl
  rw [hlen, hchunks]
  rfl

/-- C2 amended: for every buffer state and requested duration whose
implied chunk count `chunks_needed = min(int(chunks_per_ms*d), capacity)`
is at least 1, `get_latest_audio` returns exactly the `chunks_needed`
most recent chunks flattened in logical oldest-to-newest order (hence at
most one buffer capacity of samples), concatenating the two physical
slices in logical order when the window wraps; when the implied count is
0 the source instead returns the entire buffer (see the
counterexample). -/
theorem get_latest_audio_most_recent (sample_rate chunk_size : ℕ)
    (buf : List (List ℤ)) (idx duration_ms : ℕ) (hidx : idx < buf.length)
    (h1 : 1 ≤ chunksNeededFor sample_rate chunk_size duration_ms buf.length) :
    get_latest_audio sample_rate chunk_size buf idx true duration_ms =
      (if 0 < ((specLatestChunks buf idx
            (chunksNeededFor sample_rate chunk_size duration_ms buf.length)).flatten).length
       then some ((specLatestChunks buf idx
            (chunksNeededFor sample_rate chunk_size duration_ms buf.length)).flatten)
       else none) := by
  simp only [get_latest_audio, Bool.not_true, Bool.false_eq_true, if_false]
  rw [getLatestAudioSel_eq_spec buf idx _ hidx h1 (min_le_right _ _)]

/-- Witness for C2 amended: `chunks_per_ms = 1`, duration 3 ms, capacity
4, cursor 1: the three most recent chunks are slots 2, 3, 0 in that
(wrapped) logical order. -/
theorem get_latest_audio_most_recent_witness :
    get_latest_audio 1000 1 [[10], [20], [30], [40]] 1 true 3 = some [30, 40, 10] := by
  have hfl : ⌊(1000 : ℚ) / ((1 : ℚ) * 1000) * (3 : ℚ)⌋₊ = 3 := by
    norm_num
  have hchunks : chunksNeededFor 1000 1 3 4 = 3 := by
    rw [chunksNeededFor]
    norm_num [hfl]
  have h := get_latest_audio_most_recent 1000 1 [[10], [20], [30], [40]] 1 3
    (by norm_num)
    (by rw [show ([[10], [20], [30], [40]] : List (List ℤ)).length = 4 from rfl, hchunks]; norm_num)
  rw [h]
  rw [show ([[10], [20], [30], [40]] : List (List ℤ)).length = 4 from rfl, hchunks]
  rfl

end ClassifyAV
